import Mathlib

/-
Shallow embedding of `torchy_baselines/common/distributions.py`.

Tensors of rank 0, 1 and 2 are modelled over the reals; elementwise
binary operations check shapes (with the broadcasting cases PyTorch
would perform between these ranks) and return `none` on a shape error,
mirroring the runtime errors PyTorch raises.  Random sampling is
modelled by passing the standard-normal noise tensor explicitly, so
`rsample` is the deterministic reparameterisation `loc + scale * noise`.
Raising an exception is modelled as `none` (for shape errors) or as an
explicit `PyErr` value (for the factory).  Python's attribute lookup for
methods (inheritance) is modelled by an explicit method-resolution
function over the class hierarchy of the file.
-/

namespace Torchy

/-- Real tensors of rank 0 (scalar), 1 (vector) or 2 (matrix, a list of rows). -/
inductive Tensor where
  | scalar (x : ℝ)
  | vec (v : List ℝ)
  | mat (m : List (List ℝ))

namespace Tensor

/-- Number of axes of the tensor, i.e. `len(t.shape)` in PyTorch. -/
def rank : Tensor → Nat
  | .scalar _ => 0
  | .vec _ => 1
  | .mat _ => 2

/-- Elementwise application of a unary function, e.g. `th.tanh`, `th.log`,
`(·) ** 2` or `log_std.exp()`. -/
def map (f : ℝ → ℝ) : Tensor → Tensor
  | .scalar x => .scalar (f x)
  | .vec v => .vec (v.map f)
  | .mat m => .mat (m.map (fun r => r.map f))

/-- Elementwise binary operation with the PyTorch broadcasting rules for
ranks 0, 1 and 2; `none` models the shape-mismatch runtime error. -/
def ewise (f : ℝ → ℝ → ℝ) : Tensor → Tensor → Option Tensor
  | .scalar a, .scalar b => some (.scalar (f a b))
  | .scalar a, .vec w => some (.vec (w.map (fun y => f a y)))
  | .vec v, .scalar b => some (.vec (v.map (fun x => f x b)))
  | .scalar a, .mat n => some (.mat (n.map (fun r => r.map (fun y => f a y))))
  | .mat m, .scalar b => some (.mat (m.map (fun r => r.map (fun x => f x b))))
  | .vec v, .vec w =>
      if v.length = w.length then some (.vec (List.zipWith f v w)) else none
  | .vec v, .mat n =>
      if n.all (fun r => r.length = v.length)
      then some (.mat (n.map (fun r => List.zipWith f v r))) else none
  | .mat m, .vec w =>
      if m.all (fun r => r.length = w.length)
      then some (.mat (m.map (fun r => List.zipWith f r w))) else none
  | .mat m, .mat n =>
      if m.map List.length = n.map List.length
      then some (.mat (List.zipWith (List.zipWith f) m n)) else none

/-- Models `th.ones_like(t)`. -/
def onesLike (t : Tensor) : Tensor := t.map (fun _ => 1)

/-- Models `t.sum()` (sum of every element, yielding a rank-0 tensor). -/
def sumAll : Tensor → Tensor
  | .scalar x => .scalar x
  | .vec v => .scalar v.sum
  | .mat m => .scalar (m.map List.sum).sum

/-- Models `t.sum(dim=1)`: defined only for rank-2 tensors; on rank 0 or 1
PyTorch raises "Dimension out of range", modelled as `none`. -/
def sumDim1 : Tensor → Option Tensor
  | .mat m => some (.vec (m.map List.sum))
  | _ => none

/-- Every element of the tensor satisfies `p`. -/
def Forall (p : ℝ → Prop) : Tensor → Prop
  | .scalar x => p x
  | .vec v => ∀ x ∈ v, p x
  | .mat m => ∀ r ∈ m, ∀ x ∈ r, p x

end Tensor

/-- Models `np.arctanh` (the real inverse hyperbolic tangent; the value on
inputs outside (-1, 1), where NumPy returns nan/inf, is irrelevant junk). -/
noncomputable def arctanh (x : ℝ) : ℝ := (1 / 2) * Real.log ((1 + x) / (1 - x))

/-- State of `torch.distributions.Normal(loc, scale)`; in this file the two
fields always have identical shape, as built in `proba_distribution`. -/
structure Normal where
  loc : Tensor
  scale : Tensor

namespace Normal

/-- Pointwise Gaussian log-density as PyTorch computes it, as a function of
the deviation `d = x - loc` and the scale:
`-(d ** 2) / (2 * scale ** 2) - log scale - log (sqrt (2 * pi))`. -/
noncomputable def pointLogPdf (d σ : ℝ) : ℝ :=
  -(d ^ 2) / (2 * σ ^ 2) - Real.log σ - Real.log (Real.sqrt (2 * Real.pi))

/-- Models `Normal(loc, scale).log_prob(x)`: elementwise log-density with
broadcasting. -/
noncomputable def log_prob (n : Normal) (x : Tensor) : Option Tensor := do
  let d ← Tensor.ewise (fun a b => a - b) x n.loc
  Tensor.ewise pointLogPdf d n.scale

/-- Models `Normal(loc, scale).entropy()`: elementwise
`0.5 + 0.5 * log (2 * pi) + log scale`. -/
noncomputable def entropy (n : Normal) : Option Tensor :=
  Tensor.ewise (fun _ σ => 1 / 2 + 1 / 2 * Real.log (2 * Real.pi) + Real.log σ)
    n.loc n.scale

/-- Models `Normal(loc, scale).rsample()` with the standard-normal noise
tensor made explicit: the reparameterised draw `loc + scale * noise`. -/
def rsample (n : Normal) (noise : Tensor) : Option Tensor := do
  let s ← Tensor.ewise (fun a b => a * b) n.scale noise
  Tensor.ewise (fun a b => a + b) n.loc s

end Normal

/-- The classes defined in `distributions.py`. -/
inductive PyClass where
  | distributionBase
  | diagGaussianClass
  | squashedDiagGaussianClass
  | categoricalClass
deriving DecidableEq

/-- The single-inheritance hierarchy of the file:
`DiagGaussianDistribution(Distribution)`,
`SquashedDiagGaussianDistribution(DiagGaussianDistribution)`,
`CategoricalDistribution(Distribution)`. -/
def parentClass : PyClass → Option PyClass
  | .distributionBase => none
  | .diagGaussianClass => some .distributionBase
  | .squashedDiagGaussianClass => some .diagGaussianClass
  | .categoricalClass => some .distributionBase

/-- What a method's body does: either `raise NotImplementedError` or a
concrete implementation, tagged with the class whose body it is. -/
inductive MethodBody where
  | raisesNotImplemented
  | concreteBody (owner : PyClass)
deriving DecidableEq

/-- Which classes define `entropy` in their own body: the abstract base
raises `NotImplementedError` (lines 29-35), `DiagGaussianDistribution`
(lines 75-76) and `CategoricalDistribution` (lines 155-156) implement it,
and `SquashedDiagGaussianDistribution` (lines 92-128) does not define it. -/
def entropyDecl : PyClass → Option MethodBody
  | .distributionBase => some .raisesNotImplemented
  | .diagGaussianClass => some (.concreteBody .diagGaussianClass)
  | .squashedDiagGaussianClass => none
  | .categoricalClass => some (.concreteBody .categoricalClass)

/-- Which classes define `kl_div` in their own body: only the abstract base
(lines 20-27), whose body raises `NotImplementedError`; no subclass
overrides it. -/
def kl_divDecl : PyClass → Option MethodBody
  | .distributionBase => some .raisesNotImplemented
  | _ => none

/-- Python attribute lookup along the (linear) inheritance chain, with
fuel bounding the chain length. -/
def resolveMethodFuel (decl : PyClass → Option MethodBody) :
    Nat → PyClass → Option MethodBody
  | 0, _ => none
  | fuel + 1, c =>
    match decl c with
    | some b => some b
    | none =>
      match parentClass c with
      | some p => resolveMethodFuel decl fuel p
      | none => none

/-- Python attribute lookup for a method on an instance of class `c`
(the hierarchy has depth at most 4). -/
def resolveMethod (decl : PyClass → Option MethodBody) (c : PyClass) :
    Option MethodBody :=
  resolveMethodFuel decl 4 c

/-- State of a `DiagGaussianDistribution` after `proba_distribution` has been
called: the field `self.distribution` holds the `Normal` object (line 62). -/
structure DiagGaussState where
  distribution : Normal

namespace DiagGaussianDistribution

/-- Models lines 60-62 of `DiagGaussianDistribution.proba_distribution`:
`action_std = th.ones_like(mean_actions) * log_std.exp()` and
`self.distribution = Normal(mean_actions, action_std)`.  The action the
Python method then returns is `mode ()` or `sample` of this state
(lines 63-67); sampling is modelled separately with explicit noise. -/
noncomputable def proba_distribution (mean_actions log_std : Tensor) :
    Option DiagGaussState := do
  let action_std ← Tensor.ewise (fun o s => o * Real.exp s)
    (Tensor.onesLike mean_actions) log_std
  pure ⟨⟨mean_actions, action_std⟩⟩

/-- Models lines 69-70: `return self.distribution.mean`. -/
def mode (st : DiagGaussState) : Tensor := st.distribution.loc

/-- Models lines 72-73: `return self.distribution.rsample()`, with the
standard-normal noise explicit. -/
def sample (st : DiagGaussState) (noise : Tensor) : Option Tensor :=
  st.distribution.rsample noise

/-- Models lines 75-76: `return self.distribution.entropy()`. -/
noncomputable def entropy (st : DiagGaussState) : Option Tensor :=
  st.distribution.entropy

/-- Models lines 83-89: elementwise Gaussian log-density of the action,
summed over `axis=1` when the result has rank above 1, and over all
elements otherwise. -/
noncomputable def log_prob (st : DiagGaussState) (action : Tensor) :
    Option Tensor := do
  let lp ← st.distribution.log_prob action
  if 1 < lp.rank then Tensor.sumDim1 lp else pure (Tensor.sumAll lp)

end DiagGaussianDistribution

/-- State of a `SquashedDiagGaussianDistribution` after parameterisation:
the inherited `Normal` state plus the `epsilon` set in `__init__`
(lines 93-96) and the `gaussian_action` cache (line 97, updated by
`mode`/`sample`). -/
structure SquashedState where
  base : DiagGaussState
  epsilon : ℝ
  gaussian_action : Option Tensor

namespace SquashedDiagGaussianDistribution

/-- Models lines 99-101 together with `__init__` (93-97): the state built by
the inherited `proba_distribution`, with the given `epsilon` (default
`1e-6`) and an empty cache.  The action the Python method returns is
`mode ()` or `sample` of this state (dynamic dispatch picks the squashed
overrides); those are modelled separately. -/
noncomputable def proba_distribution (mean_actions log_std : Tensor)
    (epsilon : ℝ) : Option SquashedState := do
  let base ← DiagGaussianDistribution.proba_distribution mean_actions log_std
  pure ⟨base, epsilon, none⟩

/-- Models lines 103-106: `self.gaussian_action = self.distribution.mean;
return th.tanh(self.gaussian_action)`.  Returns the action together with
the updated state. -/
noncomputable def mode (st : SquashedState) : Tensor × SquashedState :=
  let g := st.base.distribution.loc
  (Tensor.map Real.tanh g, { st with gaussian_action := some g })

/-- Models lines 108-110: `self.gaussian_action = self.distribution.rsample();
return th.tanh(self.gaussian_action)`, with explicit noise. -/
noncomputable def sample (st : SquashedState) (noise : Tensor) :
    Option (Tensor × SquashedState) := do
  let g ← st.base.distribution.rsample noise
  pure (Tensor.map Real.tanh g, { st with gaussian_action := some g })

/-- The class body of `SquashedDiagGaussianDistribution` (lines 92-128) does
not define `entropy`; attribute lookup finds the implementation inherited
from `DiagGaussianDistribution` (lines 75-76), the entropy of the
underlying unsquashed Gaussian. -/
noncomputable def entropy (st : SquashedState) : Option Tensor :=
  DiagGaussianDistribution.entropy st.base

/-- Models lines 117-128: when `gaussian_action` is absent it is recovered
as `arctanh(action)` (line 122); the inherited Gaussian log-likelihood
of `gaussian_action` (line 125) then has the squash correction
`th.sum(th.log(1 - action ** 2 + self.epsilon), dim=1)` subtracted
(line 127). -/
noncomputable def log_prob (st : SquashedState) (action : Tensor)
    (gaussian_action : Option Tensor) : Option Tensor := do
  let g := match gaussian_action with
    | some g => g
    | none => Tensor.map arctanh action
  let lp ← DiagGaussianDistribution.log_prob st.base g
  let corr ← Tensor.sumDim1
    (Tensor.map (fun a => Real.log (1 - a ^ 2 + st.epsilon)) action)
  Tensor.ewise (fun x y => x - y) lp corr

end SquashedDiagGaussianDistribution

/-- State of a `CategoricalDistribution` after `proba_distribution`
(lines 141-142): `self.distribution = Categorical(logits=action_logits)`,
with the batched logits matrix as parameter. -/
structure CategoricalState where
  logits : List (List ℝ)

namespace CategoricalDistribution

/-- Softmax of one row of logits, the `probs` tensor
`torch.distributions.Categorical` derives from its logits. -/
noncomputable def softmaxRow (r : List ℝ) : List ℝ :=
  r.map (fun x => Real.exp x / (r.map Real.exp).sum)

/-- Models `self.distribution.probs`: row-wise softmax of the logits. -/
noncomputable def probs (st : CategoricalState) : List (List ℝ) :=
  st.logits.map softmaxRow

/-- Index of the first maximal element of a row, modelling `th.argmax`
along `dim=1` (deterministic, ties broken by the lowest index). -/
noncomputable def argmaxIdx (l : List ℝ) : Nat :=
  match l.maximum with
  | none => 0
  | some m => l.indexOf m

/-- Models lines 149-150: `th.argmax(self.distribution.probs, dim=1)`. -/
noncomputable def mode (st : CategoricalState) : List Nat :=
  (probs st).map argmaxIdx

/-- Models lines 155-156: `self.distribution.entropy()`, the Shannon
entropy `-sum p * log p` of each row of `probs` (PyTorch computes it as
`-(logits_normalized * probs).sum(-1)`, the same value since the
normalised logits are the logs of `probs`). -/
noncomputable def entropy (st : CategoricalState) : List ℝ :=
  (probs st).map (fun p => -(p.map (fun x => x * Real.log x)).sum)

/-- Models lines 163-165: `self.distribution.log_prob(action)`, the log of
the chosen probability for each batch row (`none` on an out-of-range
index or a batch-size mismatch). -/
noncomputable def log_prob (st : CategoricalState) (action : List Nat) :
    Option (List ℝ) :=
  if st.logits.length = action.length then
    some (List.zipWith (fun r a => Real.log ((softmaxRow r).getD a 0))
      st.logits action)
  else none

end CategoricalDistribution

/-- The four `gym.spaces` types named in `make_proba_distribution`. -/
inductive GymSpace where
  | box (shape : List Nat)
  | discrete (n : Nat)
  | multiDiscrete (nvec : List Nat)
  | multiBinary (n : Nat)

/-- The Python class name of the space, as `type(action_space)` displays
in the error message. -/
def GymSpace.typeName : GymSpace → String
  | .box _ => "Box"
  | .discrete _ => "Discrete"
  | .multiDiscrete _ => "MultiDiscrete"
  | .multiBinary _ => "MultiBinary"

/-- The exceptions `make_proba_distribution` can raise. -/
inductive PyErr where
  | assertionError (msg : String)
  | notImplementedError (msg : String)
deriving DecidableEq

/-- The unparameterised distribution object the factory constructs, with
its `action_dim` argument. -/
inductive ProbaDist where
  | diagGaussianDist (action_dim : Nat)
  | categoricalDist (action_dim : Nat)
deriving DecidableEq

/-- Message of the `NotImplementedError` of lines 185-187, as a function of
the printed type of the action space. -/
def notImplMsg (t : String) : String :=
  "Error: probability distribution, not implemented for action space of type "
    ++ t ++ ". Must be of type Gym Spaces: Box, Discrete, MultiDiscrete or MultiBinary."

/-- Models lines 168-187, `make_proba_distribution`: a Box must be a vector
(assert, line 176) and yields `DiagGaussianDistribution(shape[0])`; a
Discrete yields `CategoricalDistribution(n)`; the MultiDiscrete and
MultiBinary branches are commented out in the source, so those spaces
fall through to the `NotImplementedError` naming the offending type. -/
def make_proba_distribution : GymSpace → Except PyErr ProbaDist
  | .box shape =>
    if shape.length = 1 then .ok (.diagGaussianDist (shape.headD 0))
    else .error (.assertionError "Error: the action space must be a vector")
  | .discrete n => .ok (.categoricalDist n)
  | sp => .error (.notImplementedError (notImplMsg sp.typeName))

/-- Claim-side formula (from the specification's words, for comparison with
the code): the diagonal-Gaussian log-density of the point `xs` with means
`μs` and standard deviations `σs`, summed over action dimensions. -/
noncomputable def gaussLogDensitySum (μs σs xs : List ℝ) : ℝ :=
  (List.zipWith
    (fun x ms => -(x - ms.1) ^ 2 / (2 * ms.2 ^ 2) - Real.log ms.2
      - Real.log (Real.sqrt (2 * Real.pi)))
    xs (μs.zip σs)).sum

/-- Claim-side formula: the Jacobian correction of the squashing bijection,
`log (1 - a² + ε)` summed over action dimensions. -/
noncomputable def squashCorrectionSum (ε : ℝ) (as : List ℝ) : ℝ :=
  (as.map (fun a => Real.log (1 - a ^ 2 + ε))).sum

theorem neg_one_lt_tanh (x : ℝ) : -1 < Real.tanh x := by
  rw [Real.tanh_eq_sinh_div_cosh, lt_div_iff₀ (Real.cosh_pos x)]
  nlinarith [Real.exp_pos x, Real.cosh_add_sinh x]

theorem tanh_lt_one (x : ℝ) : Real.tanh x < 1 := by
  rw [Real.tanh_eq_sinh_div_cosh, div_lt_one (Real.cosh_pos x)]
  nlinarith [Real.exp_pos (-x), Real.cosh_sub_sinh x]

theorem arctanh_tanh (x : ℝ) : arctanh (Real.tanh x) = x := by
  have hc := Real.cosh_pos x
  have h1 : 1 + Real.tanh x = Real.exp x / Real.cosh x := by
    rw [Real.tanh_eq_sinh_div_cosh, ← Real.cosh_add_sinh]
    field_simp
  have h2 : 1 - Real.tanh x = Real.exp (-x) / Real.cosh x := by
    rw [Real.tanh_eq_sinh_div_cosh, ← Real.cosh_sub_sinh]
    field_simp
  have h3 : Real.exp x / Real.cosh x / (Real.exp (-x) / Real.cosh x)
      = Real.exp (x - -x) := by
    rw [Real.exp_sub]
    field_simp
  rw [arctanh, h1, h2, h3, Real.log_exp]
  ring

theorem zipWith_const_right {α β γ : Type} (F : β → γ) :
    ∀ (xs : List α) (ys : List β), xs.length = ys.length →
      List.zipWith (fun _ y => F y) xs ys = ys.map F
  | [], [], _ => rfl
  | _ :: xs, _ :: ys, h => by
    simp only [List.zipWith_cons_cons, List.map_cons, List.cons.injEq, true_and]
    exact zipWith_const_right F xs ys (by simpa using h)

theorem zipWith_zipWith_map {α β γ δ ε ζ : Type} (f : α → β → γ)
    (g : γ → δ → ε) (F : ζ → δ) :
    ∀ (a : List α) (b : List β) (c : List ζ),
      List.zipWith g (List.zipWith f a b) (c.map F)
        = List.zipWith (fun x p => g (f x p.1) (F p.2)) a (b.zip c)
  | [], _, _ => by simp
  | _ :: _, [], _ => by simp
  | _ :: _, _ :: _, [] => by simp
  | x :: a, y :: b, z :: c => by
    simp only [List.zipWith_cons_cons, List.map_cons, List.zip_cons_cons]
    exact congrArg _ (zipWith_zipWith_map f g F a b c)

theorem ewise_mat_vec (f : ℝ → ℝ → ℝ) (m : List (List ℝ)) (v : List ℝ)
    (h : ∀ r ∈ m, r.length = v.length) :
    Tensor.ewise f (.mat m) (.vec v)
      = some (.mat (m.map (fun r => List.zipWith f r v))) := by
  simp only [Tensor.ewise]
  rw [if_pos]
  rw [List.all_eq_true]
  intro r hr
  exact decide_eq_true (h r hr)

theorem ewise_mat_mat (f : ℝ → ℝ → ℝ) (m n : List (List ℝ))
    (h : m.map List.length = n.map List.length) :
    Tensor.ewise f (.mat m) (.mat n)
      = some (.mat (List.zipWith (List.zipWith f) m n)) := by
  simp only [Tensor.ewise]
  rw [if_pos h]

theorem ewise_vec_vec (f : ℝ → ℝ → ℝ) (v w : List ℝ)
    (h : v.length = w.length) :
    Tensor.ewise f (.vec v) (.vec w)
      = some (.vec (List.zipWith f v w)) := by
  simp only [Tensor.ewise]
  rw [if_pos h]

theorem zipWith_zipWith_same_right {α β γ δ ε : Type} (f : α → β → γ)
    (g : γ → δ → ε) (F : β → δ) :
    ∀ (a : List α) (b : List β),
      List.zipWith g (List.zipWith f a b) (b.map F)
        = List.zipWith (fun x y => g (f x y) (F y)) a b
  | [], _ => by simp
  | _ :: _, [] => by simp
  | x :: a, y :: b => by
    simp only [List.zipWith_cons_cons, List.map_cons]
    exact congrArg _ (zipWith_zipWith_same_right f g F a b)

theorem map_length_of_rows {k : Nat} :
    ∀ (a : List (List ℝ)), (∀ r ∈ a, r.length = k) →
      a.map List.length = List.replicate a.length k
  | [], _ => rfl
  | r :: a, h => by
    have h1 : r.length = k := h r (List.mem_cons_self r a)
    simp only [List.map_cons, List.length_cons, List.replicate_succ, h1]
    exact congrArg _ (map_length_of_rows a (fun r' hr' => h r' (List.mem_cons_of_mem _ hr')))

/-- Reduction of `DiagGaussianDistribution.proba_distribution` on a batched
mean matrix and a log-std vector of matching width: the stored `Normal`
has the mean as `loc` and `exp log_std`, broadcast across the batch, as
`scale`. -/
theorem diag_proba_mat (m : List (List ℝ)) (ls : List ℝ)
    (h : ∀ r ∈ m, r.length = ls.length) :
    DiagGaussianDistribution.proba_distribution (.mat m) (.vec ls)
      = some ⟨⟨.mat m, .mat (m.map (fun _ => ls.map Real.exp))⟩⟩ := by
  simp only [DiagGaussianDistribution.proba_distribution, Tensor.onesLike,
    Tensor.map]
  rw [ewise_mat_vec _ _ _ (by
    intro r hr
    obtain ⟨r', hr', rfl⟩ := List.mem_map.1 hr
    simpa using h r' hr')]
  simp only [Option.bind_eq_bind, Option.some_bind, Option.pure_def,
    List.map_map, Function.comp, Option.some.injEq, DiagGaussState.mk.injEq,
    Normal.mk.injEq, true_and, Tensor.mat.injEq]
  refine List.map_congr_left (fun r hr => ?_)
  show List.zipWith (fun o s => o * Real.exp s) (r.map (fun _ => 1)) ls
    = ls.map Real.exp
  rw [List.zipWith_map_left]
  simp only [one_mul]
  exact zipWith_const_right Real.exp r ls (h r hr)

/-- Reduction of `DiagGaussianDistribution.proba_distribution` on an
unbatched (rank-1) mean and a log-std vector of the same length. -/
theorem diag_proba_vec (μv : List ℝ) (ls : List ℝ)
    (h : μv.length = ls.length) :
    DiagGaussianDistribution.proba_distribution (.vec μv) (.vec ls)
      = some ⟨⟨.vec μv, .vec (ls.map Real.exp)⟩⟩ := by
  simp only [DiagGaussianDistribution.proba_distribution, Tensor.onesLike,
    Tensor.map]
  rw [ewise_vec_vec _ _ _ (by simpa using h)]
  simp only [Option.bind_eq_bind, Option.some_bind, Option.pure_def,
    Option.some.injEq, DiagGaussState.mk.injEq, Normal.mk.injEq, true_and,
    Tensor.vec.injEq]
  rw [List.zipWith_map_left]
  simp only [one_mul]
  exact zipWith_const_right Real.exp μv ls h

theorem exists_of_mem_zipWith {α β γ : Type} {f : α → β → γ} {x : γ} :
    ∀ {l1 : List α} {l2 : List β}, x ∈ List.zipWith f l1 l2 →
      ∃ a ∈ l1, ∃ b ∈ l2, x = f a b := by
  intro l1
  induction l1 with
  | nil => intro l2 h; simp at h
  | cons a l ih =>
    intro l2 h
    cases l2 with
    | nil => simp at h
    | cons b l2' =>
      rw [List.zipWith_cons_cons, List.mem_cons] at h
      rcases h with h | h
      · exact ⟨a, List.mem_cons_self a l, b, List.mem_cons_self b l2', h⟩
      · obtain ⟨a', ha', b', hb', rfl⟩ := ih h
        exact ⟨a', List.mem_cons_of_mem _ ha', b', List.mem_cons_of_mem _ hb', rfl⟩

/-- One matrix row of the Gaussian log-density computation agrees with the
claim-side `gaussLogDensitySum`. -/
theorem row_log_pdf_eq (ls : List ℝ) (ar mr : List ℝ) :
    (List.zipWith Normal.pointLogPdf
        (List.zipWith (fun x y => x - y) ar mr) (ls.map Real.exp)).sum
      = gaussLogDensitySum mr (ls.map Real.exp) ar := by
  rw [zipWith_zipWith_map (fun x y => x - y) Normal.pointLogPdf Real.exp ar mr ls]
  rw [gaussLogDensitySum, List.zip_map_right]
  rw [List.zipWith_map_right]
  rfl

/-- Reduction of `DiagGaussianDistribution.log_prob` on a batched action
matrix whose rows match the action dimension: one value per batch row,
the row-wise summed Gaussian log-density. -/
theorem diag_log_prob_mat (m : List (List ℝ)) (ls : List ℝ)
    (a : List (List ℝ))
    (hm : ∀ r ∈ m, r.length = ls.length) (ha : ∀ r ∈ a, r.length = ls.length)
    (hlen : a.length = m.length) :
    DiagGaussianDistribution.log_prob
        ⟨⟨.mat m, .mat (m.map (fun _ => ls.map Real.exp))⟩⟩ (.mat a)
      = some (.vec (List.zipWith
          (fun ar mr => gaussLogDensitySum mr (ls.map Real.exp) ar) a m)) := by
  have hshape1 : a.map List.length = m.map List.length := by
    rw [map_length_of_rows a ha, map_length_of_rows m hm, hlen]
  have hrows : ∀ r ∈ List.zipWith (List.zipWith (fun x y => x - y)) a m,
      r.length = ls.length := by
    intro r hr
    obtain ⟨ar, har, mr, hmr, rfl⟩ := exists_of_mem_zipWith hr
    rw [List.length_zipWith, ha ar har, hm mr hmr, min_self]
  have hshape2 : (List.zipWith (List.zipWith (fun x y => x - y)) a m).map
        List.length
      = (m.map (fun _ => ls.map Real.exp)).map List.length := by
    rw [map_length_of_rows _ hrows,
      map_length_of_rows (m.map (fun _ => ls.map Real.exp)) (by
        intro r hr
        obtain ⟨r', _, rfl⟩ := List.mem_map.1 hr
        exact List.length_map ls Real.exp),
      List.length_zipWith, hlen, min_self, List.length_map]
  simp only [DiagGaussianDistribution.log_prob, Normal.log_prob]
  rw [ewise_mat_mat _ _ _ hshape1]
  simp only [Option.bind_eq_bind, Option.some_bind]
  rw [ewise_mat_mat _ _ _ hshape2]
  simp only [Option.some_bind, Tensor.rank, Tensor.sumDim1]
  rw [if_pos (by norm_num)]
  rw [zipWith_zipWith_same_right (List.zipWith (fun x y => x - y))
    (List.zipWith Normal.pointLogPdf) (fun _ => ls.map Real.exp) a m]
  rw [List.map_zipWith]
  have hfg : (fun ar mr => (List.zipWith Normal.pointLogPdf
        (List.zipWith (fun x y => x - y) ar mr) (ls.map Real.exp)).sum)
      = fun ar mr => gaussLogDensitySum mr (ls.map Real.exp) ar :=
    funext fun ar => funext fun mr => row_log_pdf_eq ls ar mr
  rw [hfg]

/-- Reduction of `DiagGaussianDistribution.log_prob` on an unbatched
(rank-1) action: a single scalar, the sum over every component. -/
theorem diag_log_prob_vec (μv : List ℝ) (ls : List ℝ) (av : List ℝ)
    (hμ : μv.length = ls.length) (ha : av.length = ls.length) :
    DiagGaussianDistribution.log_prob
        ⟨⟨.vec μv, .vec (ls.map Real.exp)⟩⟩ (.vec av)
      = some (.scalar (gaussLogDensitySum μv (ls.map Real.exp) av)) := by
  simp only [DiagGaussianDistribution.log_prob, Normal.log_prob]
  rw [ewise_vec_vec _ _ _ (by rw [ha, hμ])]
  simp only [Option.bind_eq_bind, Option.some_bind]
  rw [ewise_vec_vec _ _ _ (by
    rw [List.length_zipWith, ha, hμ, min_self, List.length_map])]
  simp only [Option.some_bind, Tensor.rank, Tensor.sumAll]
  rw [if_neg (by norm_num)]
  rw [row_log_pdf_eq ls av μv]
  rfl

theorem zipWith_self_zip {α β γ : Type} (f : α → α × β → γ) :
    ∀ (r : List α) (ls : List β),
      List.zipWith f r (r.zip ls) = List.zipWith (fun x y => f x (x, y)) r ls
  | [], _ => rfl
  | _ :: _, [] => by simp
  | x :: r, y :: ls => by
    simp only [List.zip_cons_cons, List.zipWith_cons_cons]
    exact congrArg _ (zipWith_self_zip f r ls)

/-- Applying `arctanh` elementwise undoes an elementwise `tanh`. -/
theorem map_arctanh_map_tanh (t : Tensor) :
    Tensor.map arctanh (Tensor.map Real.tanh t) = t := by
  have hl : ∀ l : List ℝ, (l.map Real.tanh).map arctanh = l := by
    intro l
    rw [List.map_map]
    have h1 : l.map (arctanh ∘ Real.tanh) = l.map id :=
      List.map_congr_left (fun x _ => arctanh_tanh x)
    rw [h1, List.map_id]
  cases t with
  | scalar x => simp [Tensor.map, arctanh_tanh]
  | vec v => simp only [Tensor.map, Tensor.vec.injEq]; exact hl v
  | mat m =>
    simp only [Tensor.map, List.map_map, Tensor.mat.injEq]
    exact (List.map_congr_left (fun r _ => hl r)).trans (List.map_id _)

theorem tensor_forall_map (p : ℝ → Prop) (f : ℝ → ℝ) (t : Tensor)
    (h : ∀ x, p (f x)) : Tensor.Forall p (Tensor.map f t) := by
  cases t with
  | scalar x => exact h x
  | vec v =>
    intro x hx
    obtain ⟨y, _, rfl⟩ := List.mem_map.1 hx
    exact h y
  | mat m =>
    intro r hr x hx
    obtain ⟨r', _, rfl⟩ := List.mem_map.1 hr
    obtain ⟨y, _, rfl⟩ := List.mem_map.1 hx
    exact h y

theorem zipWith_ext {α β γ : Type} {f g : α → β → γ} (h : ∀ a b, f a b = g a b)
    (l1 : List α) (l2 : List β) :
    List.zipWith f l1 l2 = List.zipWith g l1 l2 := by
  have hfg : f = g := funext fun a => funext fun b => h a b
  rw [hfg]

/-- The summed Gaussian log-density evaluated at the mean itself: the
deviation vanishes and each dimension contributes its peak log-density
`-(log_std + log (2π) / 2)`. -/
theorem gauss_at_mean (r ls : List ℝ) (h : r.length = ls.length) :
    gaussLogDensitySum r (ls.map Real.exp) r
      = (ls.map (fun s => -(s + 1 / 2 * Real.log (2 * Real.pi)))).sum := by
  rw [gaussLogDensitySum, List.zip_map_right, List.zipWith_map_right,
    zipWith_self_zip]
  refine congrArg List.sum ?_
  refine (zipWith_ext (fun x y => ?_) r ls).trans
    (zipWith_const_right (fun s => -(s + 1 / 2 * Real.log (2 * Real.pi))) r ls h)
  simp only [Prod.map_apply, id_eq]
  rw [Real.log_exp, Real.log_sqrt (by positivity)]
  ring

/-- C3: for every parameterized SquashedDiagonalGaussian and every pre-squash
value `g` with action `a = tanh g` (elementwise), `log_prob a (some g)`
(the cached pre-image) and `log_prob a none` (pre-image recovered through
the inverse hyperbolic tangent) agree, since `arctanh (tanh g) = g`. -/
theorem claim_C3_log_prob_cache_roundtrip (st : SquashedState) (g : Tensor) :
    SquashedDiagGaussianDistribution.log_prob st (Tensor.map Real.tanh g) none
      = SquashedDiagGaussianDistribution.log_prob st (Tensor.map Real.tanh g)
          (some g) := by
  simp only [SquashedDiagGaussianDistribution.log_prob, map_arctanh_map_tanh]

/-- C5: the factory `make_proba_distribution` maps a one-dimensional Box of
dimension `d` to `DiagGaussianDistribution d`, a Discrete of cardinality
`n` to `CategoricalDistribution n`, and fails on every other space type
with a `NotImplementedError` whose message names the offending type. -/
theorem claim_C5_factory_dispatch :
    (∀ d : Nat, make_proba_distribution (.box [d])
      = .ok (.diagGaussianDist d))
    ∧ (∀ n : Nat, make_proba_distribution (.discrete n)
      = .ok (.categoricalDist n))
    ∧ (∀ nvec : List Nat, make_proba_distribution (.multiDiscrete nvec)
      = .error (.notImplementedError
          (notImplMsg (GymSpace.typeName (.multiDiscrete nvec)))))
    ∧ (∀ n : Nat, make_proba_distribution (.multiBinary n)
      = .error (.notImplementedError
          (notImplMsg (GymSpace.typeName (.multiBinary n))))) :=
  ⟨fun _ => rfl, fun _ => rfl, fun _ => rfl, fun _ => rfl⟩

/-- C9: `kl_div` is declared only in the abstract base class, where it
raises `NotImplementedError`, and no variant overrides it: method
resolution on every class of the file yields the raising body, so no
divergence value is ever returned. -/
theorem claim_C9_kl_div_not_implemented :
    ∀ c : PyClass, resolveMethod kl_divDecl c = some .raisesNotImplemented := by
  intro c
  cases c <;> rfl

/-- C10: `SquashedDiagGaussianDistribution.log_prob` sums its Jacobian
correction over `dim=1` unconditionally, so a rank-1 (unbatched) action
tensor is a runtime error (`none`), whatever the state and whatever
pre-image argument is supplied — unlike the rank-1 path of the base
class's `log_prob`. -/
theorem claim_C10_squashed_log_prob_rank1_error (st : SquashedState)
    (v : List ℝ) (gopt : Option Tensor) :
    SquashedDiagGaussianDistribution.log_prob st (.vec v) gopt = none := by
  simp only [SquashedDiagGaussianDistribution.log_prob, Tensor.map,
    Tensor.sumDim1]
  cases DiagGaussianDistribution.log_prob st.base
      (match gopt with
        | some g => g
        | none => Tensor.map arctanh (.vec v)) <;>
    simp

/-- C1 counterexample: on a concrete parameterized
`SquashedDiagGaussianDistribution` (mean `[[0]]`, log-std `[0]`, default
`ε = 1e-6`), `entropy ()` does return a value — the entropy of the
underlying unsquashed Gaussian — contradicting the claim that it signals
"not supported". -/
theorem claim_C1_counterexample :
    SquashedDiagGaussianDistribution.proba_distribution
        (.mat [[0]]) (.vec [0]) (1e-6)
      = some ⟨⟨⟨.mat [[0]], .mat [[Real.exp 0]]⟩⟩, 1e-6, none⟩
    ∧ SquashedDiagGaussianDistribution.entropy
        ⟨⟨⟨.mat [[0]], .mat [[Real.exp 0]]⟩⟩, 1e-6, none⟩
      = some (.mat [[1 / 2 + 1 / 2 * Real.log (2 * Real.pi)
          + Real.log (Real.exp 0)]]) := by
  constructor
  · have hbase := diag_proba_mat [[0]] [0] (by intro r hr; simp at hr; simp [hr])
    simp only [List.map_cons, List.map_nil] at hbase
    simp [SquashedDiagGaussianDistribution.proba_distribution, hbase]
  · simp [SquashedDiagGaussianDistribution.entropy,
      DiagGaussianDistribution.entropy, Normal.entropy, Tensor.ewise]

/-- C1 amended: `entropy ()` on a parameterized
`SquashedDiagGaussianDistribution` does not signal "not supported";
the method is inherited from `DiagGaussianDistribution` (no override in
the squashed class) and silently returns the entropy of the underlying
unsquashed Gaussian, `1/2 + 1/2 log (2π) + log_std_j` per dimension. -/
theorem claim_C1_amended_entropy_inherited (m : List (List ℝ)) (ls : List ℝ)
    (ε : ℝ) (st : SquashedState)
    (hst : SquashedDiagGaussianDistribution.proba_distribution
        (.mat m) (.vec ls) ε = some st)
    (hm : ∀ r ∈ m, r.length = ls.length) :
    resolveMethod entropyDecl .squashedDiagGaussianClass
        = some (.concreteBody .diagGaussianClass)
    ∧ SquashedDiagGaussianDistribution.entropy st
        = some (.mat (m.map (fun _ =>
            ls.map (fun s => 1 / 2 + 1 / 2 * Real.log (2 * Real.pi) + s)))) := by
  refine ⟨rfl, ?_⟩
  rw [SquashedDiagGaussianDistribution.proba_distribution,
    diag_proba_mat m ls hm] at hst
  simp only [Option.bind_eq_bind, Option.some_bind, Option.pure_def,
    Option.some.injEq] at hst
  subst hst
  have hsh : m.map List.length
      = (m.map (fun _ => ls.map Real.exp)).map List.length := by
    rw [List.map_map]
    refine List.map_congr_left (fun r hr => ?_)
    show r.length = (ls.map Real.exp).length
    rw [List.length_map]
    exact hm r hr
  simp only [SquashedDiagGaussianDistribution.entropy,
    DiagGaussianDistribution.entropy, Normal.entropy]
  rw [ewise_mat_mat _ _ _ hsh]
  rw [List.zipWith_map_right, List.zipWith_same]
  refine congrArg (fun l => some (Tensor.mat l)) ?_
  refine List.map_congr_left (fun r hr => ?_)
  show List.zipWith (fun _ σ => 1 / 2 + 1 / 2 * Real.log (2 * Real.pi)
      + Real.log σ) r (ls.map Real.exp) = _
  rw [List.zipWith_map_right]
  refine ((zipWith_ext (fun x y => ?_) r ls).trans
    (zipWith_const_right
      (fun s => 1 / 2 + 1 / 2 * Real.log (2 * Real.pi) + s) r ls (hm r hr)))
  rw [Real.log_exp]

/-- C1 amended, witness at mean `[[0]]`, log-std `[0]`, `ε = 1e-6`. -/
theorem claim_C1_amended_witness :
    SquashedDiagGaussianDistribution.proba_distribution
        (.mat [[0]]) (.vec [0]) (1e-6)
      = some ⟨⟨⟨.mat [[0]], .mat ([[0]].map (fun _ => [0].map Real.exp))⟩⟩,
          1e-6, none⟩
    ∧ (resolveMethod entropyDecl .squashedDiagGaussianClass
        = some (.concreteBody .diagGaussianClass)
      ∧ SquashedDiagGaussianDistribution.entropy
          ⟨⟨⟨.mat [[0]], .mat ([[0]].map (fun _ => [0].map Real.exp))⟩⟩,
            1e-6, none⟩
        = some (.mat ([[0]].map (fun _ =>
            [0].map (fun s => 1 / 2 + 1 / 2 * Real.log (2 * Real.pi) + s))))) := by
  have h0 : ∀ r ∈ [[(0 : ℝ)]], r.length = [(0 : ℝ)].length := by
    intro r hr
    simp at hr
    simp [hr]
  have hst : SquashedDiagGaussianDistribution.proba_distribution
      (.mat [[0]]) (.vec [0]) (1e-6)
      = some ⟨⟨⟨.mat [[0]], .mat ([[0]].map (fun _ => [0].map Real.exp))⟩⟩,
          1e-6, none⟩ := by
    simp [SquashedDiagGaussianDistribution.proba_distribution,
      diag_proba_mat [[0]] [0] h0]
  exact ⟨hst,
    claim_C1_amended_entropy_inherited [[0]] [0] (1e-6) _ hst h0⟩

/-- C6: for a parameterized DiagonalGaussian, `mode ()` is the mean matrix,
and `log_prob (mode ())` is one scalar per batch row, each the peak
log-density `- Σ_j (log_std_j + log (2π) / 2)`. -/
theorem claim_C6_mode_peak_density (m : List (List ℝ)) (ls : List ℝ)
    (st : DiagGaussState)
    (hst : DiagGaussianDistribution.proba_distribution (.mat m) (.vec ls)
        = some st)
    (hm : ∀ r ∈ m, r.length = ls.length) :
    DiagGaussianDistribution.mode st = .mat m
    ∧ DiagGaussianDistribution.log_prob st (DiagGaussianDistribution.mode st)
      = some (.vec (m.map (fun _ =>
          (ls.map (fun s => -(s + 1 / 2 * Real.log (2 * Real.pi)))).sum))) := by
  rw [diag_proba_mat m ls hm, Option.some.injEq] at hst
  subst hst
  refine ⟨rfl, ?_⟩
  show DiagGaussianDistribution.log_prob _ (.mat m) = _
  rw [diag_log_prob_mat m ls m hm hm rfl]
  rw [List.zipWith_same]
  refine congrArg (fun l => some (Tensor.vec l)) ?_
  exact List.map_congr_left (fun r hr => gauss_at_mean r ls (hm r hr))

/-- C6, witness at mean `[[0]]`, log-std `[0]`. -/
theorem claim_C6_witness :
    DiagGaussianDistribution.proba_distribution (.mat [[0]]) (.vec [0])
      = some ⟨⟨.mat [[0]], .mat ([[0]].map (fun _ => [0].map Real.exp))⟩⟩
    ∧ (DiagGaussianDistribution.mode
          ⟨⟨.mat [[0]], .mat ([[0]].map (fun _ => [0].map Real.exp))⟩⟩
        = .mat [[0]]
      ∧ DiagGaussianDistribution.log_prob
          ⟨⟨.mat [[0]], .mat ([[0]].map (fun _ => [0].map Real.exp))⟩⟩
          (DiagGaussianDistribution.mode
            ⟨⟨.mat [[0]], .mat ([[0]].map (fun _ => [0].map Real.exp))⟩⟩)
        = some (.vec ([[0]].map (fun _ =>
            ([0].map (fun s => -(s + 1 / 2 * Real.log (2 * Real.pi)))).sum)))) := by
  have h0 : ∀ r ∈ [[(0 : ℝ)]], r.length = [(0 : ℝ)].length := by
    intro r hr
    simp at hr
    simp [hr]
  exact ⟨diag_proba_mat [[0]] [0] h0,
    claim_C6_mode_peak_density [[0]] [0] _ (diag_proba_mat [[0]] [0] h0) h0⟩

/-- C2: for a parameterized SquashedDiagonalGaussian with the default
`ε = 1e-6`, `log_prob` on a batched action `a` with supplied pre-squash
value `g` is, per batch row, the summed diagonal-Gaussian log-density of
the `g` row minus the summed Jacobian correction `log (1 - a² + ε)` of
the `a` row. -/
theorem claim_C2_squashed_log_prob_formula (m g a : List (List ℝ))
    (ls : List ℝ) (st : SquashedState)
    (hst : SquashedDiagGaussianDistribution.proba_distribution
        (.mat m) (.vec ls) (1e-6) = some st)
    (hm : ∀ r ∈ m, r.length = ls.length) (hg : ∀ r ∈ g, r.length = ls.length)
    (hglen : g.length = m.length) (halen : a.length = g.length) :
    SquashedDiagGaussianDistribution.log_prob st (.mat a) (some (.mat g))
      = some (.vec (List.zipWith
          (fun gr p => gaussLogDensitySum p.1 (ls.map Real.exp) gr
            - squashCorrectionSum (1e-6) p.2) g (m.zip a))) := by
  rw [SquashedDiagGaussianDistribution.proba_distribution,
    diag_proba_mat m ls hm] at hst
  simp only [Option.bind_eq_bind, Option.some_bind, Option.pure_def,
    Option.some.injEq] at hst
  subst hst
  simp only [SquashedDiagGaussianDistribution.log_prob]
  rw [diag_log_prob_mat m ls g hm hg hglen]
  simp only [Option.bind_eq_bind, Option.some_bind, Tensor.map,
    Tensor.sumDim1, List.map_map]
  rw [ewise_vec_vec _ _ _ (by
    rw [List.length_zipWith, hglen, min_self, List.length_map, halen, hglen])]
  rw [zipWith_zipWith_map
    (fun ar mr => gaussLogDensitySum mr (ls.map Real.exp) ar)
    (fun x y => x - y)
    (List.sum ∘ fun r => List.map (fun x => Real.log (1 - x ^ 2 + 1e-6)) r)
    g m a]
  rfl

/-- C2, witness at mean `[[0]]`, log-std `[0]`, action `[[0]]`, pre-squash
value `[[0]]`. -/
theorem claim_C2_witness :
    SquashedDiagGaussianDistribution.proba_distribution
        (.mat [[0]]) (.vec [0]) (1e-6)
      = some ⟨⟨⟨.mat [[0]], .mat ([[0]].map (fun _ => [0].map Real.exp))⟩⟩,
          1e-6, none⟩
    ∧ SquashedDiagGaussianDistribution.log_prob
        ⟨⟨⟨.mat [[0]], .mat ([[0]].map (fun _ => [0].map Real.exp))⟩⟩,
          1e-6, none⟩
        (.mat [[0]]) (some (.mat [[0]]))
      = some (.vec (List.zipWith
          (fun gr p => gaussLogDensitySum p.1 ([0].map Real.exp) gr
            - squashCorrectionSum (1e-6) p.2)
          [[0]] ([[(0 : ℝ)]].zip [[(0 : ℝ)]]))) := by
  have h0 : ∀ r ∈ [[(0 : ℝ)]], r.length = [(0 : ℝ)].length := by
    intro r hr
    simp at hr
    simp [hr]
  have hst : SquashedDiagGaussianDistribution.proba_distribution
      (.mat [[0]]) (.vec [0]) (1e-6)
      = some ⟨⟨⟨.mat [[0]], .mat ([[0]].map (fun _ => [0].map Real.exp))⟩⟩,
          1e-6, none⟩ := by
    simp [SquashedDiagGaussianDistribution.proba_distribution,
      diag_proba_mat [[0]] [0] h0]
  exact ⟨hst, claim_C2_squashed_log_prob_formula [[0]] [[0]] [[0]] [0] _ hst
    h0 h0 rfl rfl⟩

/-- C4: for a parameterized DiagonalGaussian, `log_prob` on a batched
action matrix of `B` rows yields exactly `B` scalars, each the row sum of
per-dimension Gaussian log-densities, while on a rank-1 (unbatched)
action it yields exactly one scalar, the sum over all components. -/
theorem claim_C4_log_prob_batch_shape (m a : List (List ℝ))
    (μv av ls : List ℝ) (stB stU : DiagGaussState)
    (hstB : DiagGaussianDistribution.proba_distribution (.mat m) (.vec ls)
        = some stB)
    (hstU : DiagGaussianDistribution.proba_distribution (.vec μv) (.vec ls)
        = some stU)
    (hm : ∀ r ∈ m, r.length = ls.length) (ha : ∀ r ∈ a, r.length = ls.length)
    (hlen : a.length = m.length)
    (hμ : μv.length = ls.length) (hav : av.length = ls.length) :
    (∃ out : List ℝ,
      DiagGaussianDistribution.log_prob stB (.mat a) = some (.vec out)
      ∧ out.length = a.length
      ∧ out = List.zipWith
          (fun ar mr => gaussLogDensitySum mr (ls.map Real.exp) ar) a m)
    ∧ DiagGaussianDistribution.log_prob stU (.vec av)
      = some (.scalar (gaussLogDensitySum μv (ls.map Real.exp) av)) := by
  rw [diag_proba_mat m ls hm, Option.some.injEq] at hstB
  rw [diag_proba_vec μv ls hμ, Option.some.injEq] at hstU
  subst hstB
  subst hstU
  refine ⟨⟨_, diag_log_prob_mat m ls a hm ha hlen, ?_, rfl⟩,
    diag_log_prob_vec μv ls av hμ hav⟩
  rw [List.length_zipWith, hlen, min_self]

/-- C4, witness at mean `[[0]]` (batched) and `[0]` (unbatched), log-std
`[0]`, actions `[[0]]` and `[0]`. -/
theorem claim_C4_witness :
    DiagGaussianDistribution.proba_distribution (.mat [[0]]) (.vec [0])
      = some ⟨⟨.mat [[0]], .mat ([[0]].map (fun _ => [0].map Real.exp))⟩⟩
    ∧ DiagGaussianDistribution.proba_distribution (.vec [0]) (.vec [0])
      = some ⟨⟨.vec [0], .vec ([0].map Real.exp)⟩⟩
    ∧ ((∃ out : List ℝ,
        DiagGaussianDistribution.log_prob
          ⟨⟨.mat [[0]], .mat ([[0]].map (fun _ => [0].map Real.exp))⟩⟩
          (.mat [[0]]) = some (.vec out)
        ∧ out.length = [[(0 : ℝ)]].length
        ∧ out = List.zipWith
            (fun ar mr => gaussLogDensitySum mr ([0].map Real.exp) ar)
            [[0]] [[0]])
      ∧ DiagGaussianDistribution.log_prob
          ⟨⟨.vec [0], .vec ([0].map Real.exp)⟩⟩ (.vec [0])
        = some (.scalar (gaussLogDensitySum [0] ([0].map Real.exp) [0]))) := by
  have h0 : ∀ r ∈ [[(0 : ℝ)]], r.length = [(0 : ℝ)].length := by
    intro r hr
    simp at hr
    simp [hr]
  exact ⟨diag_proba_mat [[0]] [0] h0, diag_proba_vec [0] [0] rfl,
    claim_C4_log_prob_batch_shape [[0]] [[0]] [0] [0] [0] _ _
      (diag_proba_mat [[0]] [0] h0) (diag_proba_vec [0] [0] rfl)
      h0 h0 rfl rfl rfl⟩

/-- C7: for a parameterized SquashedDiagonalGaussian, `sample` returns the
elementwise `tanh` of the reparameterized Gaussian draw and `mode` the
`tanh` of the mean; every component of either action lies strictly in
(-1, 1); and afterwards the cached `gaussian_action` holds the pre-tanh
value, so `tanh` of the cache is the returned action. -/
theorem claim_C7_squashed_sample_mode (st : SquashedState) (noise g : Tensor)
    (h : st.base.distribution.rsample noise = some g) :
    SquashedDiagGaussianDistribution.sample st noise
      = some (Tensor.map Real.tanh g, { st with gaussian_action := some g })
    ∧ (SquashedDiagGaussianDistribution.mode st).1
        = Tensor.map Real.tanh st.base.distribution.loc
    ∧ (SquashedDiagGaussianDistribution.mode st).2.gaussian_action
        = some st.base.distribution.loc
    ∧ Tensor.Forall (fun x => -1 < x ∧ x < 1) (Tensor.map Real.tanh g)
    ∧ Tensor.Forall (fun x => -1 < x ∧ x < 1)
        (SquashedDiagGaussianDistribution.mode st).1 := by
  refine ⟨?_, rfl, rfl, ?_, ?_⟩
  · simp [SquashedDiagGaussianDistribution.sample, h]
  · exact tensor_forall_map _ _ _ (fun x => ⟨neg_one_lt_tanh x, tanh_lt_one x⟩)
  · exact tensor_forall_map _ _ _ (fun x => ⟨neg_one_lt_tanh x, tanh_lt_one x⟩)

/-- C7, witness: state with mean `[0]`, scale `[1]` and noise `[0]`. -/
theorem claim_C7_witness :
    Normal.rsample ⟨.vec [0], .vec [1]⟩ (.vec [0]) = some (.vec [0 + 1 * 0])
    ∧ (SquashedDiagGaussianDistribution.sample
          ⟨⟨⟨.vec [0], .vec [1]⟩⟩, 1e-6, none⟩ (.vec [0])
        = some (Tensor.map Real.tanh (.vec [0 + 1 * 0]),
            ⟨⟨⟨.vec [0], .vec [1]⟩⟩, 1e-6, some (.vec [0 + 1 * 0])⟩)
      ∧ Tensor.Forall (fun x => -1 < x ∧ x < 1)
          (Tensor.map Real.tanh (.vec [0 + 1 * 0]))) := by
  have h : Normal.rsample ⟨.vec [0], .vec [1]⟩ (.vec [0])
      = some (.vec [0 + 1 * 0]) := rfl
  have hmain := claim_C7_squashed_sample_mode
    ⟨⟨⟨.vec [0], .vec [1]⟩⟩, 1e-6, none⟩ (.vec [0]) (.vec [0 + 1 * 0]) h
  exact ⟨h, hmain.1, hmain.2.2.2.1⟩

/-- C8: for every parameterized CategoricalAction and batch row,
`mode ()` deterministically returns an index attaining the maximum
probability — equivalently the maximum logit — and `entropy ()` of the
uniform three-way distribution with logits `[0, 0, 0]` is `log 3`. -/
theorem claim_C8_categorical_mode_entropy :
    (∀ (st : CategoricalState) (i : Nat) (lrow : List ℝ),
      st.logits[i]? = some lrow → lrow ≠ [] →
      ∃ mi : Nat, (CategoricalDistribution.mode st)[i]? = some mi
        ∧ (∃ pm : ℝ,
            (CategoricalDistribution.softmaxRow lrow)[mi]? = some pm
            ∧ ∀ p ∈ CategoricalDistribution.softmaxRow lrow, p ≤ pm)
        ∧ (∃ lm : ℝ, lrow[mi]? = some lm ∧ ∀ x ∈ lrow, x ≤ lm))
    ∧ CategoricalDistribution.entropy ⟨[[0, 0, 0]]⟩ = [Real.log 3] := by
  constructor
  · intro st i lrow hrow hne
    set prow := CategoricalDistribution.softmaxRow lrow with hprow
    have hmode : (CategoricalDistribution.mode st)[i]?
        = some (CategoricalDistribution.argmaxIdx prow) := by
      simp only [CategoricalDistribution.mode, CategoricalDistribution.probs,
        List.getElem?_map, hrow, Option.map_some']
    set mi := CategoricalDistribution.argmaxIdx prow with hmi
    have hpne : prow ≠ [] := by
      rw [hprow, CategoricalDistribution.softmaxRow]
      simpa using hne
    obtain ⟨mx, hmx⟩ : ∃ mx : ℝ, prow.maximum = some mx := by
      cases hchk : prow.maximum with
      | bot => exact absurd (List.maximum_eq_bot.1 hchk) hpne
      | coe mx => exact ⟨mx, rfl⟩
    have hargmax : mi = prow.indexOf mx := by
      rw [hmi, CategoricalDistribution.argmaxIdx, hmx]
    have hmem : mx ∈ prow := List.maximum_mem hmx
    have hidx : prow.indexOf mx < prow.length := List.indexOf_lt_length.2 hmem
    have hget : prow[mi]? = some mx := by
      rw [hargmax, List.getElem?_eq_getElem hidx]
      exact congrArg some (List.getElem_indexOf hidx)
    have hlenp : prow.length = lrow.length := by
      rw [hprow, CategoricalDistribution.softmaxRow, List.length_map]
    have hmi_lt : mi < lrow.length := by
      rw [← hlenp, hargmax]
      exact hidx
    obtain ⟨lm, hlm⟩ : ∃ lm : ℝ, lrow[mi]? = some lm :=
      ⟨_, List.getElem?_eq_getElem hmi_lt⟩
    set Z := (lrow.map Real.exp).sum with hZ
    have hZpos : 0 < Z := by
      rw [hZ]
      refine List.sum_pos _ (fun x hx => ?_) (by simpa using hne)
      obtain ⟨y, _, rfl⟩ := List.mem_map.1 hx
      exact Real.exp_pos y
    have hfx : prow[mi]? = some (Real.exp lm / Z) := by
      rw [hprow, CategoricalDistribution.softmaxRow, List.getElem?_map, hlm,
        Option.map_some', hZ]
    have hmx_eq : mx = Real.exp lm / Z := by
      rw [hget] at hfx
      exact Option.some.inj hfx
    refine ⟨mi, hmode,
      ⟨mx, hget, fun p hp => List.le_maximum_of_mem hp hmx⟩,
      ⟨lm, hlm, fun x hx => ?_⟩⟩
    have hmem2 : Real.exp x / Z ∈ prow := by
      rw [hprow, CategoricalDistribution.softmaxRow, hZ]
      exact List.mem_map_of_mem _ hx
    have hle : Real.exp x / Z ≤ mx := List.le_maximum_of_mem hmem2 hmx
    rw [hmx_eq] at hle
    exact Real.exp_le_exp.1 ((div_le_div_iff_of_pos_right hZpos).1 hle)
  · simp only [CategoricalDistribution.entropy, CategoricalDistribution.probs,
      CategoricalDistribution.softmaxRow, List.map_cons, List.map_nil,
      Real.exp_zero, List.sum_cons, List.sum_nil]
    norm_num
    have h13 : Real.log (1 / 3) = -Real.log 3 := by
      rw [one_div, Real.log_inv]
    rw [h13]
    ring

/-- C8, witness at the batched logits `[[0, 1]]`, row 0. -/
theorem claim_C8_witness :
    (⟨[[0, 1]]⟩ : CategoricalState).logits[0]? = some [0, 1]
    ∧ ([0, 1] : List ℝ) ≠ []
    ∧ (∃ mi : Nat,
        (CategoricalDistribution.mode ⟨[[0, 1]]⟩)[0]? = some mi
        ∧ (∃ pm : ℝ,
            (CategoricalDistribution.softmaxRow [0, 1])[mi]? = some pm
            ∧ ∀ p ∈ CategoricalDistribution.softmaxRow [0, 1], p ≤ pm)
        ∧ (∃ lm : ℝ, ([0, 1] : List ℝ)[mi]? = some lm
            ∧ ∀ x ∈ ([0, 1] : List ℝ), x ≤ lm)) :=
  ⟨rfl, by simp,
    claim_C8_categorical_mode_entropy.1 ⟨[[0, 1]]⟩ 0 [0, 1] rfl (by simp)⟩

end Torchy
